import Mathlib

/-!
Verification of the job-queue / worker-pool subsystem of the
attentive-customer-chatbot repository (`app/services/message_queue.py`).

The embedding is shallow: Python dictionaries become association lists over
a small `Value` type, the `ThreadSafeQueue` object becomes an explicit state
record, and the async worker loop becomes (a) a list-level run function for
drain/failure-isolation properties and (b) a small-step machine whose states
are the loop's suspension points, used for the temporal claims about
shutdown and cancellation.
-/

namespace MQ

/-- Values stored in a message dictionary: Python `None`, strings, and
nested mappings (enough for `id`, `timestamp`, `message_type`, `media_url`
and `metadata`). -/
inductive Value where
  | null : Value
  | str : String → Value
  | vmap : List (String × Value) → Value
deriving Repr

/-- Python truthiness of a `Value`: `None` and empty strings/mappings are
falsy, as tested by `if message.get("media_url")`. -/
def Value.truthy : Value → Bool
  | .null => false
  | .str s => !(s == "")
  | .vmap l => !l.isEmpty

/-- A Python dict, as an insertion-ordered association list. -/
abbrev Dict := List (String × Value)

/-- `k in message` for a Python dict. -/
def dictContains (m : Dict) (k : String) : Bool :=
  m.any (fun p => p.1 == k)

/-- `message.get(k)` / `message[k]` lookup: first (unique) binding of `k`. -/
def dictGet (m : Dict) (k : String) : Option Value :=
  (m.find? (fun p => p.1 == k)).map (fun p => p.2)

/-- `message[k] = v`: replace in place when the key exists, else append
(Python dicts preserve insertion order and append new keys at the end). -/
def dictSet (m : Dict) (k : String) (v : Value) : Dict :=
  if dictContains m k then
    m.map (fun p => if p.1 == k then (k, v) else p)
  else
    m ++ [(k, v)]

/-- Truthiness of `message.get(k)`: a missing key reads as `None`, falsy. -/
def optTruthy : Option Value → Bool
  | none => false
  | some v => v.truthy

/-- `prepare_message` (message_queue.py lines 126-144), with the two
nondeterministic inputs — the generated uuid and the current time — passed
explicitly as `freshId` and `now`.  Each of the four well-known fields is
filled only when its key is absent. -/
def prepare_message (freshId now : String) (message : Dict) : Dict :=
  let m1 := if dictContains message "id" then message
            else dictSet message "id" (.str freshId)
  let m2 := if dictContains m1 "timestamp" then m1
            else dictSet m1 "timestamp" (.str now)
  let m3 := if dictContains m2 "message_type" then m2
            else dictSet m2 "message_type"
              (.str (if optTruthy (dictGet m2 "media_url") then "media" else "text"))
  let m4 := if dictContains m3 "metadata" then m3
            else dictSet m3 "metadata" (.vmap [])
  m4

/-- State of a `ThreadSafeQueue`: the FIFO contents, the `asyncio.Event`
(the wakeup signal) and the shutdown flag.  The element type is generic:
the queue itself treats messages opaquely. -/
structure QState (α : Type) where
  queue : List α
  event : Bool
  shuttingDown : Bool
deriving Repr, DecidableEq

/-- `ThreadSafeQueue.enqueue` (lines 26-30): append at the tail under the
lock and set the wakeup event. -/
def enqueue (s : QState α) (m : α) : QState α :=
  { s with queue := s.queue ++ [m], event := true }

/-- `ThreadSafeQueue.dequeue` (lines 32-47).  The concurrent environment
during the empty-queue wait is abstracted by two parameters: `signalled` —
whether the event was set (by some enqueue) before the 1.0s timeout of
`asyncio.wait_for` elapsed — and `wakeQueue` — the queue contents at the
moment the woken caller reacquires the lock.  On the timeout path the code
returns `None` without touching the queue; on the wake path it makes
exactly one lock-protected removal attempt. -/
def dequeue (s : QState α) (signalled : Bool) (wakeQueue : List α) :
    Option α × QState α :=
  if s.queue.isEmpty then
    if signalled then
      match wakeQueue with
      | [] => (none, { s with event := true, queue := [] })
      | x :: xs => (some x, { s with event := true, queue := xs })
    else
      (none, { s with event := false })
  else
    match s.queue with
    | [] => (none, s)
    | x :: xs => (some x, { s with queue := xs })

/-- `dequeue` in a quiescent environment (no concurrent enqueue during the
wait): the sequential semantics used by the drain and worker-run claims. -/
def dequeueNC (s : QState α) : Option α × QState α :=
  dequeue s false []

/-- `ThreadSafeQueue.peek` (lines 54-62): under the lock, `get` the head and
`put` it back — which re-inserts it at the tail, not at the head. -/
def peek (s : QState α) : Option α × QState α :=
  match s.queue with
  | [] => (none, s)
  | x :: xs => (some x, { s with queue := xs ++ [x] })

/-- `ThreadSafeQueue.get_length` (lines 49-52). -/
def get_length (s : QState α) : Nat :=
  s.queue.length

/-- Enqueue a whole list of messages in order. -/
def enqueueAll (s : QState α) (ms : List α) : QState α :=
  ms.foldl enqueue s

/-- Repeatedly dequeue (quiescent environment), collecting the returned
messages, stopping at the first empty answer; `fuel` bounds the number of
dequeue calls. -/
def drain : Nat → QState α → List α
  | 0, _ => []
  | n + 1, s =>
    match dequeueNC s with
    | (none, _) => []
    | (some m, s1) => m :: drain n s1

theorem enqueueAll_queue (s : QState α) (ms : List α) :
    (enqueueAll s ms).queue = s.queue ++ ms := by
  induction ms generalizing s with
  | nil => simp [enqueueAll]
  | cons m ms ih =>
    have h := ih (enqueue s m)
    simp only [enqueueAll, List.foldl_cons]
    simp only [enqueueAll] at h
    rw [h]
    simp [enqueue]

theorem drain_eq_take (n : Nat) (s : QState α) :
    drain n s = s.queue.take n := by
  induction n generalizing s with
  | zero => simp [drain]
  | succ n ih =>
    match h : s.queue with
    | [] => simp [drain, dequeueNC, dequeue, h]
    | x :: xs =>
      simp [drain, dequeueNC, dequeue, h, ih]

/-! ## Worker: list-level run

A handler is modelled as `α → σ → σ × Option ε`: invoked on a message it
transforms its private state `σ` (the side effects it performed before
returning or raising) and optionally raises an error `ε`. -/

/-- `ThreadSafeQueue._safe_process_message` (lines 92-104): invoke the
handler; any raised error is caught and logged, never propagated, and the
side effects the handler performed up to the raise persist. -/
def safeProcessMessage (handler : α → σ → σ × Option ε) (m : α) (st : σ) : σ :=
  match handler m st with
  | (st1, some _) => st1
  | (st1, none) => st1

/-- `ThreadSafeQueue._worker_loop` (lines 72-90) run for `fuel` iterations
in a quiescent environment (no concurrent producer or co-worker): check the
shutdown flag, dequeue, process via `safeProcessMessage` when a message was
returned, otherwise idle briefly; also returns the trace of messages handed
to the handler, in order.  The code's `if message:` test is modelled as the
some/none distinction of the dequeue result; the two agree on every
prepared envelope, which holds at least its four normalized keys and is
therefore a truthy dict. -/
def workerRun (handler : α → σ → σ × Option ε) :
    Nat → QState α → σ → QState α × σ × List α
  | 0, qs, st => (qs, st, [])
  | n + 1, qs, st =>
    if qs.shuttingDown then (qs, st, [])
    else
      match dequeueNC qs with
      | (some m, qs1) =>
        let st1 := safeProcessMessage handler m st
        let r := workerRun handler n qs1 st1
        (r.1, r.2.1, m :: r.2.2)
      | (none, qs1) => workerRun handler n qs1 st

/-! ## Worker: small-step machine

For the temporal claims (shutdown, cancellation, loop resilience) the
worker task is a small-step machine whose states are the suspension points
of `_worker_loop`: each step resumes the task at its current suspension
point and runs it to the next one.  Cancellation (`Task.cancel`) raises
`CancelledError` at the suspension point when the task is next resumed;
`CancelledError` derives from `BaseException`, so neither the
`except Exception` in `_worker_loop` nor the one in `_safe_process_message`
catches it and the task terminates there. -/

/-- Suspension points of one worker task.  `inHandler m k`: suspended at an
await inside the handler invocation for `m`, with `k` further awaits before
the invocation completes.  `exited c`: the task finished, `c = true` when
by cancellation, `c = false` when by observing the shutdown flag. -/
inductive WorkerPhase (α : Type) where
  | loopTop : WorkerPhase α
  | waitingEvent : WorkerPhase α
  | idleSleep : WorkerPhase α
  | errorSleep : WorkerPhase α
  | inHandler : α → Nat → WorkerPhase α
  | exited : Bool → WorkerPhase α
deriving Repr, DecidableEq

/-- The sleep entered at a phase, in milliseconds: the no-message idle is
`asyncio.sleep(0.1)` and the infra-error cooldown is `asyncio.sleep(1)`. -/
def sleepMs : WorkerPhase α → Nat
  | .idleSleep => 100
  | .errorSleep => 1000
  | _ => 0

def WorkerPhase.isExited : WorkerPhase α → Bool
  | .exited _ => true
  | _ => false

/-- One worker task: its phase, its handler state, and whether
`Task.cancel` has been requested on it. -/
structure WorkerTask (α σ : Type) where
  phase : WorkerPhase α
  hstate : σ
  cancelRequested : Bool
deriving Repr, DecidableEq

/-- One scheduler step of a worker task (`_worker_loop`, lines 77-90).
`handler` is the handler's total effect on its state, `hAwaits m` the
number of awaits inside the invocation for `m`, and `infraErr` an oracle
for the loop's own bookkeeping raising (the `except Exception` branch at
line 86).  A cancel-requested task resumed at a suspension point terminates
there with `CancelledError`; at the loop top the flag is checked first. -/
def stepWorker (handler : α → σ → σ) (hAwaits : α → Nat) (infraErr : Bool)
    (qs : QState α) (t : WorkerTask α σ) : QState α × WorkerTask α σ :=
  match t.phase with
  | .exited _ => (qs, t)
  | .waitingEvent =>
    if t.cancelRequested then (qs, { t with phase := .exited true })
    else if qs.event then
      match qs.queue with
      | [] => (qs, { t with phase := .idleSleep })
      | m :: rest =>
        ({ qs with queue := rest }, { t with phase := .inHandler m (hAwaits m) })
    else (qs, { t with phase := .idleSleep })
  | .idleSleep =>
    if t.cancelRequested then (qs, { t with phase := .exited true })
    else (qs, { t with phase := .loopTop })
  | .errorSleep =>
    if t.cancelRequested then (qs, { t with phase := .exited true })
    else (qs, { t with phase := .loopTop })
  | .inHandler m k =>
    if t.cancelRequested then (qs, { t with phase := .exited true })
    else
      match k with
      | 0 => (qs, { t with phase := .loopTop, hstate := handler m t.hstate })
      | k + 1 => (qs, { t with phase := .inHandler m k })
  | .loopTop =>
    if qs.shuttingDown then (qs, { t with phase := .exited false })
    else if infraErr then (qs, { t with phase := .errorSleep })
    else
      match qs.queue with
      | [] => ({ qs with event := false }, { t with phase := .waitingEvent })
      | m :: rest =>
        ({ qs with queue := rest }, { t with phase := .inHandler m (hAwaits m) })

/-- `ThreadSafeQueue.shutdown` (lines 106-118): set the shared shutdown
flag, then call `cancel()` on every worker task that is not done, then
gather (wait for) them all.  The gather itself is modelled by the theorems
showing every worker's next step terminates it. -/
def shutdown (qs : QState α) (workers : List (WorkerTask α σ)) :
    QState α × List (WorkerTask α σ) :=
  ({ qs with shuttingDown := true },
   workers.map (fun t =>
     if t.phase.isExited then t else { t with cancelRequested := true }))

/-! ## Facade with in-place mutation

Python dicts are heap objects passed by reference; `prepare_message`
mutates its argument and returns it.  A heap maps references (indices) to
dictionaries, making object identity expressible. -/

abbrev Heap := List Dict

/-- New-style reference formulation of `prepare_message`: the source sets
keys on `message` itself and returns `message`, so the returned reference
is the argument reference and the heap cell at `r` is updated. -/
def prepareRef (freshId now : String) (h : Heap) (r : Nat) : Nat × Heap :=
  (r, h.set r (prepare_message freshId now (h.getD r [])))

/-- `enqueue_message` (lines 147-150): prepare, then enqueue the prepared
message — the very reference `prepare_message` returned. -/
def enqueue_message (freshId now : String) (h : Heap) (qs : QState Nat)
    (r : Nat) : Heap × QState Nat :=
  let pr := prepareRef freshId now h r
  (pr.2, enqueue qs pr.1)

/-! ## Dictionary lemmas -/

theorem dictSet_absent (m : Dict) (k : String) (v : Value)
    (h : dictContains m k = false) : dictSet m k v = m ++ [(k, v)] := by
  simp [dictSet, h]

theorem dictContains_append (m l : Dict) (k' : String) :
    dictContains (m ++ l) k' = (dictContains m k' || dictContains l k') := by
  simp [dictContains]

theorem dictContains_cons (p : String × Value) (l : Dict) (k' : String) :
    dictContains (p :: l) k' = ((p.1 == k') || dictContains l k') := by
  simp [dictContains]

theorem dictContains_nil (k' : String) : dictContains [] k' = false := rfl

theorem find?_eq_none_of_not_contains (m : Dict) (k : String)
    (h : dictContains m k = false) :
    m.find? (fun p => p.1 == k) = none := by
  rw [List.find?_eq_none]
  intro p hp
  simp only [dictContains] at h
  have h2 := List.any_eq_false.mp h p hp
  simp [h2]

theorem dictGet_eq_none (m : Dict) (k : String)
    (h : dictContains m k = false) : dictGet m k = none := by
  simp [dictGet, find?_eq_none_of_not_contains m k h]

theorem dictGet_append (m l : Dict) (k' : String) :
    dictGet (m ++ l) k' = (dictGet m k').or (dictGet l k') := by
  cases hf : m.find? (fun p => p.1 == k') <;>
    simp [dictGet, List.find?_append, hf]

theorem dictGet_cons (p : String × Value) (l : Dict) (k' : String) :
    dictGet (p :: l) k' = if (p.1 == k') then some p.2 else dictGet l k' := by
  by_cases hp : (p.1 == k') = true <;> simp [dictGet, List.find?_cons, hp]

theorem dictGet_nil (k' : String) : dictGet [] k' = none := rfl

/-! ## Preparation lemmas (shared helpers) -/

theorem prepare_all_present (m : Dict) (f t : String)
    (hid : dictContains m "id" = true)
    (hts : dictContains m "timestamp" = true)
    (hmt : dictContains m "message_type" = true)
    (hmd : dictContains m "metadata" = true) :
    prepare_message f t m = m := by
  simp [prepare_message, hid, hts, hmt, hmd]

theorem prepare_contains_all (m : Dict) (f t : String) :
    dictContains (prepare_message f t m) "id" = true ∧
    dictContains (prepare_message f t m) "timestamp" = true ∧
    dictContains (prepare_message f t m) "message_type" = true ∧
    dictContains (prepare_message f t m) "metadata" = true := by
  by_cases hid : dictContains m "id" <;>
  by_cases hts : dictContains m "timestamp" <;>
  by_cases hmt : dictContains m "message_type" <;>
  by_cases hmd : dictContains m "metadata" <;>
  simp_all [prepare_message, dictSet_absent, dictContains_append,
    dictContains_cons, dictContains_nil]

theorem prepare_get_id (m : Dict) (f t : String)
    (hid : dictContains m "id" = false) :
    dictGet (prepare_message f t m) "id" = some (.str f) := by
  by_cases hts : dictContains m "timestamp" <;>
  by_cases hmt : dictContains m "message_type" <;>
  by_cases hmd : dictContains m "metadata" <;>
  simp_all [prepare_message, dictSet_absent, dictContains_append,
    dictContains_cons, dictContains_nil, dictGet_append, dictGet_cons,
    dictGet_nil, dictGet_eq_none]

theorem prepare_get_timestamp (m : Dict) (f t : String)
    (hts : dictContains m "timestamp" = false) :
    dictGet (prepare_message f t m) "timestamp" = some (.str t) := by
  by_cases hid : dictContains m "id" <;>
  by_cases hmt : dictContains m "message_type" <;>
  by_cases hmd : dictContains m "metadata" <;>
  simp_all [prepare_message, dictSet_absent, dictContains_append,
    dictContains_cons, dictContains_nil, dictGet_append, dictGet_cons,
    dictGet_nil, dictGet_eq_none]

theorem prepare_get_message_type (m : Dict) (f t : String)
    (hmt : dictContains m "message_type" = false) :
    dictGet (prepare_message f t m) "message_type"
      = some (.str (if optTruthy (dictGet m "media_url") then "media" else "text")) := by
  by_cases hid : dictContains m "id" <;>
  by_cases hts : dictContains m "timestamp" <;>
  by_cases hmd : dictContains m "metadata" <;>
  simp_all [prepare_message, dictSet_absent, dictContains_append,
    dictContains_cons, dictContains_nil, dictGet_append, dictGet_cons,
    dictGet_nil, dictGet_eq_none]

theorem prepare_get_metadata_absent (m : Dict) (f t : String)
    (hmd : dictContains m "metadata" = false) :
    dictGet (prepare_message f t m) "metadata" = some (.vmap []) := by
  by_cases hid : dictContains m "id" <;>
  by_cases hts : dictContains m "timestamp" <;>
  by_cases hmt : dictContains m "message_type" <;>
  simp_all [prepare_message, dictSet_absent, dictContains_append,
    dictContains_cons, dictContains_nil, dictGet_append, dictGet_cons,
    dictGet_nil, dictGet_eq_none]

theorem prepare_get_metadata_present (m : Dict) (f t : String)
    (hmd : dictContains m "metadata" = true) :
    dictGet (prepare_message f t m) "metadata" = dictGet m "metadata" := by
  by_cases hid : dictContains m "id" <;>
  by_cases hts : dictContains m "timestamp" <;>
  by_cases hmt : dictContains m "message_type" <;>
  simp_all [prepare_message, dictSet_absent, dictContains_append,
    dictContains_cons, dictContains_nil, dictGet_append, dictGet_cons,
    dictGet_nil, dictGet_eq_none]

/-! ## Claim theorems -/

/-- C7: `enqueue(job)` never fails (it is a total function); for every
queue state its effect is exactly one insertion at the tail — the queue
grows by exactly one element, appended at the end — plus setting the wakeup
event, which is set once `enqueue` returns. -/
theorem enqueue_appends_and_signals (s : QState α) (m : α) :
    enqueue s m
      = { queue := s.queue ++ [m], event := true, shuttingDown := s.shuttingDown } ∧
    (enqueue s m).queue.length = s.queue.length + 1 ∧
    (enqueue s m).event = true := by
  refine ⟨rfl, ?_, rfl⟩
  simp [enqueue]

/-- C1: enqueuing N distinct envelopes into an initially empty queue and
then dequeuing repeatedly (no concurrent activity) returns exactly those N
envelopes, in enqueue order, each exactly once. -/
theorem fifo_no_loss (α : Type) [DecidableEq α] (s0 : QState α) (L : List α)
    (h0 : s0.queue = []) (hnd : L.Nodup) :
    (∀ extra : Nat, drain (L.length + extra) (enqueueAll s0 L) = L) ∧
    ∀ m ∈ L, (drain L.length (enqueueAll s0 L)).count m = 1 := by
  have hq : (enqueueAll s0 L).queue = L := by
    rw [enqueueAll_queue, h0]; simp
  have hdr : ∀ extra : Nat, drain (L.length + extra) (enqueueAll s0 L) = L := by
    intro extra
    rw [drain_eq_take, hq, List.take_of_length_le (Nat.le_add_right _ _)]
  refine ⟨hdr, ?_⟩
  intro m hm
  have h0dr := hdr 0
  rw [Nat.add_zero] at h0dr
  rw [h0dr]
  exact List.count_eq_one_of_mem hnd hm

/-- Witness for C1 at the concrete list [10, 20, 30]. -/
theorem fifo_no_loss_witness :
    drain 5 (enqueueAll (⟨[], false, false⟩ : QState Nat) [10, 20, 30])
      = [10, 20, 30] ∧
    ∀ m ∈ [10, 20, 30],
      (drain 3 (enqueueAll (⟨[], false, false⟩ : QState Nat) [10, 20, 30])).count m
        = 1 :=
  ⟨(fifo_no_loss Nat ⟨[], false, false⟩ [10, 20, 30] rfl (by decide)).1 2,
   (fifo_no_loss Nat ⟨[], false, false⟩ [10, 20, 30] rfl (by decide)).2⟩

/-- C3: `dequeue` on an empty queue first clears the wakeup event; when no
enqueue occurs before the 1.0s timeout elapses it returns `none` (the
explicit no-job result) with the queue untouched, rather than blocking; and
when the event does fire it makes exactly one more lock-protected removal
attempt, returning the head of whatever the queue then holds (possibly
nothing, if a racing consumer emptied it) and removing at most that one
element. -/
theorem dequeue_empty_times_out (s : QState α) (w : List α)
    (h : s.queue = []) :
    dequeue s false w = (none, { s with event := false }) ∧
    (dequeue s true w).1 = w.head? ∧
    (dequeue s true w).2.queue = w.tail := by
  refine ⟨?_, ?_, ?_⟩ <;> cases w <;> simp [dequeue, h]

/-- Witness for C3 at a concrete empty-queue state. -/
theorem dequeue_empty_times_out_witness :
    dequeue (⟨[], true, false⟩ : QState Nat) false [5, 6]
      = (none, ⟨[], false, false⟩) ∧
    (dequeue (⟨[], true, false⟩ : QState Nat) true [5, 6]).1 = some 5 ∧
    (dequeue (⟨[], true, false⟩ : QState Nat) true [5, 6]).2.queue = [6] :=
  dequeue_empty_times_out ⟨[], true, false⟩ [5, 6] rfl

/-- C9: `peek` on a non-empty queue returns the head envelope and leaves
the length unchanged, but re-inserts the returned envelope at the tail; on
a queue holding at least two (distinct) envelopes, a dequeue immediately
after `peek` returns the former second envelope, not the peeked one. -/
theorem peek_moves_head_to_tail (s : QState α) (x y : α) (rest : List α)
    (h : s.queue = x :: y :: rest) (hxy : x ≠ y) :
    (peek s).1 = some x ∧
    (peek s).2.queue = y :: rest ++ [x] ∧
    get_length (peek s).2 = get_length s ∧
    (dequeueNC (peek s).2).1 = some y ∧
    (dequeueNC (peek s).2).1 ≠ some x := by
  refine ⟨?_, ?_, ?_, ?_, ?_⟩ <;>
    simp_all [peek, h, get_length, dequeueNC, dequeue]
  exact fun he => hxy he.symm

/-- Witness for C9 at the concrete queue [1, 2, 3]. -/
theorem peek_moves_head_to_tail_witness :
    (peek (⟨[1, 2, 3], false, false⟩ : QState Nat)).1 = some 1 ∧
    (peek (⟨[1, 2, 3], false, false⟩ : QState Nat)).2.queue = [2] ++ [3] ++ [1] ∧
    get_length (peek (⟨[1, 2, 3], false, false⟩ : QState Nat)).2
      = get_length (⟨[1, 2, 3], false, false⟩ : QState Nat) ∧
    (dequeueNC (peek (⟨[1, 2, 3], false, false⟩ : QState Nat)).2).1 = some 2 ∧
    (dequeueNC (peek (⟨[1, 2, 3], false, false⟩ : QState Nat)).2).1 ≠ some 1 :=
  peek_moves_head_to_tail ⟨[1, 2, 3], false, false⟩ 1 2 [3] rfl (by decide)

/-- C5 (counterexample): the claim also asserts that after preparation
"metadata is never null", universally over raw payloads; but the code only
fills `metadata` when the key is absent, so a payload that explicitly
carries `metadata = None` keeps a null metadata after preparation. -/
theorem prepare_metadata_null_counterexample :
    dictGet (prepare_message "u" "t" [("metadata", Value.null)]) "metadata"
      = some Value.null ∧
    some Value.null ≠ some (Value.vmap []) := by
  refine ⟨rfl, ?_⟩
  intro h
  injection h with h2
  cases h2

/-- C5 (amended): for every raw payload, after preparation the envelope
contains all four of `id`, `timestamp`, `message_type` and `metadata`;
`id` is the generated one if absent, `timestamp` the current time if
absent, `message_type` is "media" when a (truthy) media reference is
present and "text" otherwise if absent, and `metadata` is the empty
mapping if absent — so metadata is null only when the caller itself
supplied a null metadata value. -/
theorem prepare_fills_fields (m : Dict) (f t : String) :
    dictContains (prepare_message f t m) "id" = true ∧
    dictContains (prepare_message f t m) "timestamp" = true ∧
    dictContains (prepare_message f t m) "message_type" = true ∧
    dictContains (prepare_message f t m) "metadata" = true ∧
    (dictContains m "id" = false →
      dictGet (prepare_message f t m) "id" = some (.str f)) ∧
    (dictContains m "timestamp" = false →
      dictGet (prepare_message f t m) "timestamp" = some (.str t)) ∧
    (dictContains m "message_type" = false →
      dictGet (prepare_message f t m) "message_type"
        = some (.str (if optTruthy (dictGet m "media_url") then "media" else "text"))) ∧
    (dictContains m "metadata" = false →
      dictGet (prepare_message f t m) "metadata" = some (.vmap [])) ∧
    (dictGet m "metadata" ≠ some Value.null →
      dictGet (prepare_message f t m) "metadata" ≠ some Value.null) := by
  obtain ⟨h1, h2, h3, h4⟩ := prepare_contains_all m f t
  refine ⟨h1, h2, h3, h4, prepare_get_id m f t, prepare_get_timestamp m f t,
    prepare_get_message_type m f t, prepare_get_metadata_absent m f t, ?_⟩
  intro hnn
  by_cases hmd : dictContains m "metadata"
  · rw [prepare_get_metadata_present m f t hmd]
    exact hnn
  · rw [prepare_get_metadata_absent m f t (by simpa using hmd)]
    intro h
    injection h with h2
    cases h2

/-- Witness for C5 (amended) at the spec's concrete scenario payloads:
`{"content": "hi", "phone_number": "+1555"}` prepares to a "text" envelope
with generated id/timestamp and empty metadata; adding
`"media_url": "http://x/y.png"` prepares to a "media" envelope. -/
theorem prepare_fills_fields_witness :
    dictGet (prepare_message "u1" "t1"
        [("content", .str "hi"), ("phone_number", .str "+1555")]) "id"
      = some (.str "u1") ∧
    dictGet (prepare_message "u1" "t1"
        [("content", .str "hi"), ("phone_number", .str "+1555")]) "timestamp"
      = some (.str "t1") ∧
    dictGet (prepare_message "u1" "t1"
        [("content", .str "hi"), ("phone_number", .str "+1555")]) "message_type"
      = some (.str "text") ∧
    dictGet (prepare_message "u1" "t1"
        [("content", .str "hi"), ("phone_number", .str "+1555")]) "metadata"
      = some (.vmap []) ∧
    dictGet (prepare_message "u2" "t2"
        [("content", .str "hi"), ("phone_number", .str "+1555"),
         ("media_url", .str "http://x/y.png")]) "message_type"
      = some (.str "media") := by
  have ha := prepare_fills_fields
    [("content", .str "hi"), ("phone_number", .str "+1555")] "u1" "t1"
  have hb := prepare_fills_fields
    [("content", .str "hi"), ("phone_number", .str "+1555"),
     ("media_url", .str "http://x/y.png")] "u2" "t2"
  refine ⟨ha.2.2.2.2.1 rfl, ha.2.2.2.2.2.1 rfl, ?_, ha.2.2.2.2.2.2.2.1 rfl, ?_⟩
  · have h := ha.2.2.2.2.2.2.1 rfl
    simpa using h
  · have h := hb.2.2.2.2.2.2.1 rfl
    simpa using h

/-- C6: a payload already containing `id`, `timestamp`, `message_type` and
`metadata` is returned entirely unchanged by `prepare_message` (no
caller-supplied value is overwritten), and preparing twice yields the same
envelope as preparing once. -/
theorem prepare_preserves_and_idempotent (m : Dict) (f t f2 t2 : String) :
    (dictContains m "id" = true → dictContains m "timestamp" = true →
     dictContains m "message_type" = true → dictContains m "metadata" = true →
     prepare_message f t m = m) ∧
    prepare_message f2 t2 (prepare_message f t m) = prepare_message f t m := by
  obtain ⟨h1, h2, h3, h4⟩ := prepare_contains_all m f t
  exact ⟨fun hid hts hmt hmd => prepare_all_present m f t hid hts hmt hmd,
    prepare_all_present (prepare_message f t m) f2 t2 h1 h2 h3 h4⟩

/-- Witness for C6 at a concrete payload carrying all four fields. -/
theorem prepare_preserves_and_idempotent_witness :
    prepare_message "u9" "t9"
        [("id", .str "i0"), ("timestamp", .str "ts0"),
         ("message_type", .str "text"), ("metadata", .vmap [])]
      = [("id", .str "i0"), ("timestamp", .str "ts0"),
         ("message_type", .str "text"), ("metadata", .vmap [])] ∧
    prepare_message "u9" "t9" (prepare_message "u8" "t8"
        [("id", .str "i0"), ("timestamp", .str "ts0"),
         ("message_type", .str "text"), ("metadata", .vmap [])])
      = prepare_message "u8" "t8"
        [("id", .str "i0"), ("timestamp", .str "ts0"),
         ("message_type", .str "text"), ("metadata", .vmap [])] :=
  ⟨(prepare_preserves_and_idempotent
      [("id", .str "i0"), ("timestamp", .str "ts0"),
       ("message_type", .str "text"), ("metadata", .vmap [])]
      "u9" "t9" "u9" "t9").1 rfl rfl rfl rfl,
   (prepare_preserves_and_idempotent
      [("id", .str "i0"), ("timestamp", .str "ts0"),
       ("message_type", .str "text"), ("metadata", .vmap [])]
      "u8" "t8" "u9" "t9").2⟩

/-- C2: running the worker over a queue holding the jobs `L` hands every
job of `L` to the handler, in order, for an arbitrary handler — including
one that raises on some jobs: the raise is caught by
`_safe_process_message` and the loop proceeds to the next iteration, so
jobs enqueued before and after a failing job are still handled, and the
loop does not terminate because an invocation failed (its final state has
the shutdown flag still unset and the whole queue consumed). -/
theorem worker_failure_isolation (handler : α → σ → σ × Option ε)
    (qs : QState α) (L : List α) (st : σ)
    (hq : qs.queue = L) (hsd : qs.shuttingDown = false) :
    (workerRun handler L.length qs st).2.2 = L ∧
    (workerRun handler L.length qs st).2.1
      = L.foldl (fun s m => safeProcessMessage handler m s) st ∧
    (workerRun handler L.length qs st).1.queue = [] ∧
    (workerRun handler L.length qs st).1.shuttingDown = false := by
  induction L generalizing qs st with
  | nil => simp [workerRun, hq, hsd]
  | cons m ms ih =>
    have hdq : dequeueNC qs = (some m, { qs with queue := ms }) := by
      simp [dequeueNC, dequeue, hq]
    have ih2 := ih { qs with queue := ms } (safeProcessMessage handler m st)
      rfl hsd
    simp only [hsd] at ih2 hdq
    simp only [List.length_cons, workerRun, hsd, Bool.false_eq_true,
      if_false, hdq, List.foldl_cons]
    exact ⟨by rw [ih2.1], ih2.2.1, ih2.2.2.1, ih2.2.2.2⟩

/-- Witness for C2: jobs [1, 2, 3] with a handler that records every
invocation and raises on job 2 — jobs 1 and 3 are still successfully
handled, job 2's failure is recorded but swallowed, the queue drains. -/
theorem worker_failure_isolation_witness :
    (workerRun
        (fun (m : Nat) (st : List (Nat × Bool)) =>
          (st ++ [(m, m != 2)], if m = 2 then some "boom" else none))
        3 (⟨[1, 2, 3], false, false⟩ : QState Nat) []).2.2 = [1, 2, 3] ∧
    (workerRun
        (fun (m : Nat) (st : List (Nat × Bool)) =>
          (st ++ [(m, m != 2)], if m = 2 then some "boom" else none))
        3 (⟨[1, 2, 3], false, false⟩ : QState Nat) []).2.1
      = [(1, true), (2, false), (3, true)] ∧
    (workerRun
        (fun (m : Nat) (st : List (Nat × Bool)) =>
          (st ++ [(m, m != 2)], if m = 2 then some "boom" else none))
        3 (⟨[1, 2, 3], false, false⟩ : QState Nat) []).1.queue = [] := by
  have h := worker_failure_isolation
    (fun (m : Nat) (st : List (Nat × Bool)) =>
      (st ++ [(m, m != 2)], if m = 2 then some "boom" else none))
    ⟨[1, 2, 3], false, false⟩ [1, 2, 3] [] rfl rfl
  refine ⟨h.1, h.2.1.trans ?_, h.2.2.1⟩
  rfl

/-- C8: with the shutdown flag unset and no cancellation requested, one
scheduler step of the worker loop never reaches an exited state, whatever
the handler, queue and error oracle do; when the dequeue wait times out
with no job the worker enters the 100ms idle sleep and then re-loops, and
when the loop's own bookkeeping raises the worker enters the 1s cooldown
sleep and then resumes. -/
theorem worker_loop_never_exits (handler : α → σ → σ) (hAwaits : α → Nat)
    (infraErr : Bool) (qs : QState α) (t : WorkerTask α σ)
    (hph : t.phase.isExited = false) (hcr : t.cancelRequested = false)
    (hsd : qs.shuttingDown = false) :
    (stepWorker handler hAwaits infraErr qs t).2.phase.isExited = false ∧
    (t.phase = .waitingEvent → qs.event = false →
      (stepWorker handler hAwaits infraErr qs t).2.phase = .idleSleep) ∧
    (t.phase = .idleSleep →
      sleepMs t.phase = 100 ∧
      (stepWorker handler hAwaits infraErr qs t).2.phase = .loopTop) ∧
    (t.phase = .loopTop → infraErr = true →
      (stepWorker handler hAwaits infraErr qs t).2.phase = .errorSleep) ∧
    (t.phase = .errorSleep →
      sleepMs t.phase = 1000 ∧
      (stepWorker handler hAwaits infraErr qs t).2.phase = .loopTop) := by
  cases hp : t.phase with
  | exited b => rw [hp] at hph; simp [WorkerPhase.isExited] at hph
  | loopTop =>
    cases infraErr with
    | true => simp [stepWorker, hp, hcr, hsd, sleepMs, WorkerPhase.isExited]
    | false =>
      cases hqq : qs.queue <;>
        simp [stepWorker, hp, hcr, hsd, hqq, sleepMs, WorkerPhase.isExited]
  | waitingEvent =>
    cases hev : qs.event with
    | false => simp [stepWorker, hp, hcr, hev, sleepMs, WorkerPhase.isExited]
    | true =>
      cases hqq : qs.queue <;>
        simp [stepWorker, hp, hcr, hev, hqq, sleepMs, WorkerPhase.isExited]
  | idleSleep => simp [stepWorker, hp, hcr, sleepMs, WorkerPhase.isExited]
  | errorSleep => simp [stepWorker, hp, hcr, sleepMs, WorkerPhase.isExited]
  | inHandler m k =>
    cases k <;> simp [stepWorker, hp, hcr, sleepMs, WorkerPhase.isExited]

/-- Witness for C8 at a concrete idle worker over an empty queue. -/
theorem worker_loop_never_exits_witness :
    (stepWorker (fun (_ : Nat) (n : Nat) => n) (fun _ => 0) false
        (⟨[], false, false⟩ : QState Nat)
        ⟨.waitingEvent, 0, false⟩).2.phase.isExited = false ∧
    (stepWorker (fun (_ : Nat) (n : Nat) => n) (fun _ => 0) false
        (⟨[], false, false⟩ : QState Nat)
        ⟨.waitingEvent, 0, false⟩).2.phase = .idleSleep := by
  have h := worker_loop_never_exits (fun (_ : Nat) (n : Nat) => n)
    (fun _ => 0) false (⟨[], false, false⟩ : QState Nat)
    ⟨.waitingEvent, 0, false⟩ rfl rfl rfl
  exact ⟨h.1, h.2.1 rfl rfl⟩

/-- C4 (counterexample): a worker suspended at an await inside a handler
invocation (`inHandler 7 1`, handler effect: increment the count of
completed invocations) is, after `shutdown`, terminated by the requested
cancellation at that very suspension point: it steps to `exited true` with
its handler state still 0 — the invocation is aborted, not finished, and
the exit is by cancellation, not by observing the flag at the loop top
(which would be `exited false`); without shutdown the same worker finishes
the invocation in two steps, reaching handler state 1. -/
theorem shutdown_aborts_handler_counterexample :
    (shutdown (⟨[], false, false⟩ : QState Nat)
        [(⟨.inHandler 7 1, 0, false⟩ : WorkerTask Nat Nat)]).1.shuttingDown
      = true ∧
    (stepWorker (fun _ n => n + 1) (fun _ => 1) false
        (shutdown (⟨[], false, false⟩ : QState Nat)
          [(⟨.inHandler 7 1, 0, false⟩ : WorkerTask Nat Nat)]).1
        ((shutdown (⟨[], false, false⟩ : QState Nat)
          [(⟨.inHandler 7 1, 0, false⟩ : WorkerTask Nat Nat)]).2.getD 0
            ⟨.loopTop, 0, false⟩)).2
      = (⟨.exited true, 0, true⟩ : WorkerTask Nat Nat) ∧
    (⟨.exited true, 0, true⟩ : WorkerTask Nat Nat).phase ≠ .exited false ∧
    (stepWorker (fun _ n => n + 1) (fun _ => 1) false
        (⟨[], false, false⟩ : QState Nat)
        (stepWorker (fun _ n => n + 1) (fun _ => 1) false
          (⟨[], false, false⟩ : QState Nat)
          (⟨.inHandler 7 1, 0, false⟩ : WorkerTask Nat Nat)).2).2.hstate
      = 1 := by
  refine ⟨rfl, rfl, ?_, rfl⟩
  decide

/-- C4 (amended): `shutdown` sets the shared shutdown flag, requests
cancellation of every not-yet-finished worker task, and waits for them all;
on its next resumption every worker terminates, so the wait is bounded —
but a worker suspended at an await point (the dequeue wait, a sleep, or an
await inside a handler invocation) is terminated there by the cancellation
(`CancelledError` is not caught by the loop's `except Exception`), aborting
any in-progress handler invocation with its state unchanged; only a worker
resuming at the top of its loop exits by observing the flag. -/
theorem shutdown_terminates_workers (qs : QState α)
    (ws : List (WorkerTask α σ)) (handler : α → σ → σ) (hAwaits : α → Nat)
    (infraErr : Bool) :
    (shutdown qs ws).1.shuttingDown = true ∧
    ∀ t ∈ (shutdown qs ws).2,
      (stepWorker handler hAwaits infraErr
        (shutdown qs ws).1 t).2.phase.isExited = true ∧
      (∀ m k, t.phase = .inHandler m k →
        (stepWorker handler hAwaits infraErr (shutdown qs ws).1 t).2
          = ⟨.exited true, t.hstate, t.cancelRequested⟩) ∧
      (t.phase = .loopTop →
        (stepWorker handler hAwaits infraErr (shutdown qs ws).1 t).2.phase
          = .exited false) := by
  refine ⟨rfl, ?_⟩
  intro t ht
  simp only [shutdown, List.mem_map] at ht
  obtain ⟨t0, _, heq⟩ := ht
  by_cases hex : t0.phase.isExited = true
  · rw [if_pos hex] at heq
    subst heq
    cases hp : t0.phase with
    | exited b =>
      refine ⟨by simp [stepWorker, hp, WorkerPhase.isExited], ?_, ?_⟩
      · intro m k hk; exact WorkerPhase.noConfusion hk
      · intro hk; exact WorkerPhase.noConfusion hk
    | loopTop => rw [hp] at hex; simp [WorkerPhase.isExited] at hex
    | waitingEvent => rw [hp] at hex; simp [WorkerPhase.isExited] at hex
    | idleSleep => rw [hp] at hex; simp [WorkerPhase.isExited] at hex
    | errorSleep => rw [hp] at hex; simp [WorkerPhase.isExited] at hex
    | inHandler m k => rw [hp] at hex; simp [WorkerPhase.isExited] at hex
  · rw [if_neg hex] at heq
    subst heq
    cases hp : t0.phase with
    | exited b => rw [hp] at hex; simp [WorkerPhase.isExited] at hex
    | loopTop =>
      refine ⟨by simp [stepWorker, hp, shutdown, WorkerPhase.isExited], ?_, ?_⟩
      · intro m k hk; simp [hp] at hk
      · intro _; simp [stepWorker, hp, shutdown]
    | waitingEvent =>
      refine ⟨by simp [stepWorker, hp, WorkerPhase.isExited], ?_, ?_⟩
      · intro m k hk; simp [hp] at hk
      · intro hk; simp [hp] at hk
    | idleSleep =>
      refine ⟨by simp [stepWorker, hp, WorkerPhase.isExited], ?_, ?_⟩
      · intro m k hk; simp [hp] at hk
      · intro hk; simp [hp] at hk
    | errorSleep =>
      refine ⟨by simp [stepWorker, hp, WorkerPhase.isExited], ?_, ?_⟩
      · intro m k hk; simp [hp] at hk
      · intro hk; simp [hp] at hk
    | inHandler m k =>
      refine ⟨by simp [stepWorker, hp, WorkerPhase.isExited], ?_, ?_⟩
      · intro m2 k2 _
        simp [stepWorker, hp]
      · intro hk; simp [hp] at hk

/-- Witness for C4 (amended): one worker suspended in the dequeue wait over
an empty queue terminates on its first resumption after shutdown. -/
theorem shutdown_terminates_workers_witness :
    (shutdown (⟨[], false, false⟩ : QState Nat)
        [(⟨.waitingEvent, 0, false⟩ : WorkerTask Nat Nat)]).1.shuttingDown
      = true ∧
    (stepWorker (fun _ n => n) (fun _ => 0) false
        (shutdown (⟨[], false, false⟩ : QState Nat)
          [(⟨.waitingEvent, 0, false⟩ : WorkerTask Nat Nat)]).1
        ⟨.waitingEvent, 0, true⟩).2.phase.isExited = true := by
  have h := shutdown_terminates_workers (⟨[], false, false⟩ : QState Nat)
    [(⟨.waitingEvent, 0, false⟩ : WorkerTask Nat Nat)]
    (fun _ n => n) (fun _ => 0) false
  refine ⟨h.1, ?_⟩
  exact (h.2 ⟨.waitingEvent, 0, true⟩ (by decide)).1

/-- C10: `prepare_message` mutates its argument dict in place and returns
that same reference, and `enqueue_message` enqueues exactly that reference
(no copy): after `enqueue_message` the queue's new tail element is the
caller's own reference `r`, and the caller's raw payload — the heap cell at
`r` — is the normalized envelope, now containing all four of `id`,
`timestamp`, `message_type` and `metadata`. -/
theorem prepare_mutates_caller_payload (f t : String) (h : Heap)
    (qs : QState Nat) (r : Nat) (hr : r < h.length) :
    (prepareRef f t h r).1 = r ∧
    (enqueue_message f t h qs r).2.queue = qs.queue ++ [r] ∧
    (enqueue_message f t h qs r).1.getD r []
      = prepare_message f t (h.getD r []) ∧
    dictContains ((enqueue_message f t h qs r).1.getD r []) "id" = true ∧
    dictContains ((enqueue_message f t h qs r).1.getD r []) "timestamp"
      = true ∧
    dictContains ((enqueue_message f t h qs r).1.getD r []) "message_type"
      = true ∧
    dictContains ((enqueue_message f t h qs r).1.getD r []) "metadata"
      = true := by
  have hcell : (enqueue_message f t h qs r).1.getD r []
      = prepare_message f t (h.getD r []) := by
    simp [enqueue_message, prepareRef, List.getD_eq_getElem?_getD,
      List.getElem?_set_self hr]
  obtain ⟨h1, h2, h3, h4⟩ := prepare_contains_all (h.getD r []) f t
  exact ⟨rfl, by simp [enqueue_message, prepareRef, enqueue], hcell,
    hcell ▸ h1, hcell ▸ h2, hcell ▸ h3, hcell ▸ h4⟩

/-- Witness for C10 at a one-cell heap holding the spec's sample payload. -/
theorem prepare_mutates_caller_payload_witness :
    (prepareRef "u1" "t1" [[("content", Value.str "hi")]] 0).1 = 0 ∧
    (enqueue_message "u1" "t1" [[("content", Value.str "hi")]]
        (⟨[], false, false⟩ : QState Nat) 0).2.queue = [0] ∧
    (enqueue_message "u1" "t1" [[("content", Value.str "hi")]]
        (⟨[], false, false⟩ : QState Nat) 0).1.getD 0 []
      = prepare_message "u1" "t1" [("content", Value.str "hi")] ∧
    dictContains ((enqueue_message "u1" "t1" [[("content", Value.str "hi")]]
        (⟨[], false, false⟩ : QState Nat) 0).1.getD 0 []) "metadata" = true := by
  have h := prepare_mutates_caller_payload "u1" "t1"
    [[("content", Value.str "hi")]] ⟨[], false, false⟩ 0 (by decide)
  exact ⟨h.1, h.2.1, h.2.2.1, h.2.2.2.2.2.2⟩

end MQ
